import Mathlib

/-!
Verification of the RAG-Model repository (`rag_system.py`).

This file gives a shallow embedding of the `RAGSystem` class of
`src/rag_system.py` and proves the specification claims about it.

Modelling conventions:
* Python strings are modelled as `List Char` in the chunker (where
  character offsets matter) and as `String` elsewhere.
* Python dicts (`{"text": ..., "source": ..., ...}`) are modelled as
  insertion-ordered association lists `PyDict`.
* Machine floats (embedding coordinates, FAISS scores) are modelled as `ℚ`.
* The external collaborators (the sentence-transformer `encode`, the
  `faiss.normalize_L2` normalisation, and the Groq chat-completion call)
  are opaque parameters collected in the structure `Ext`; the FAISS
  `IndexFlatIP` itself is modelled concretely as exact inner-product
  search over the stored vectors.
* The `while` loop of `chunk_text` is translated fuel-indexed
  (`none` = the loop has not yet terminated within the given fuel), so
  that its termination is a provable property rather than an assumption.
-/

namespace RAGModel

/-! ### The chunker (`RAGSystem.chunk_text`, rag_system.py lines 71-95) -/

/-- Python `str.strip()`: remove leading and trailing whitespace. -/
def pyStrip (s : List Char) : List Char :=
  ((s.dropWhile Char.isWhitespace).reverse.dropWhile Char.isWhitespace).reverse

/-- Python `text[start : start + L]` followed by `.strip()` — the chunk the
loop body of `chunk_text` appends for a given `start` offset. -/
def sliceChunk (L : Nat) (text : List Char) (start : Nat) : List Char :=
  pyStrip ((text.drop start).take L)

/-- Fuel-indexed translation of the `while start < len(text)` loop of
`chunk_text` (rag_system.py lines 82-95), parametrised by the current
`start` offset.  Each loop iteration computes `end = start + L`, appends
`text[start:end].strip()`, breaks if `end >= len(text)`, and otherwise
continues from `start = end - O`.  `none` means the loop did not
terminate within `fuel` iterations.  (Under the intended precondition
`O < L` the natural-number subtraction `start + L - O` agrees with
the Python expression `end - overlap`.) -/
def chunkTextAux (L O : Nat) (text : List Char) : Nat → Nat → Option (List (List Char))
  | 0, _ => none
  | fuel + 1, start =>
    if start < text.length then
      if text.length ≤ start + L then
        some [sliceChunk L text start]
      else
        (chunkTextAux L O text fuel (start + L - O)).map (sliceChunk L text start :: ·)
    else
      some []

/-- `RAGSystem.chunk_text`: run the loop from `start = 0`.  Fuel
`text.length + 1` is sufficient whenever the loop terminates at all
(proved below); `.getD []` only discharges the `Option`. -/
def chunk_text (L O : Nat) (text : List Char) : List (List Char) :=
  (chunkTextAux L O text (text.length + 1) 0).getD []

/-- The same loop, instrumented to record the `start` offset of every
chunk instead of the chunk itself (`n` abbreviates `len(text)`). -/
def chunkStartsAux (L O n : Nat) : Nat → Nat → Option (List Nat)
  | 0, _ => none
  | fuel + 1, start =>
    if start < n then
      if n ≤ start + L then
        some [start]
      else
        (chunkStartsAux L O n fuel (start + L - O)).map (start :: ·)
    else
      some []

/-- The list of chunk start offsets produced by `chunk_text` on a text of
length `n`. -/
def chunk_starts (L O n : Nat) : List Nat :=
  (chunkStartsAux L O n (n + 1) 0).getD []

/-! ### Data model: Python dicts and values -/

/-- The Python values stored in the chunk/metadata dicts: strings
(`text`, `source`), integers (`chunk_id`, `total_chunks`) and floats
(`score`, modelled as `ℚ`). -/
inductive Val where
  | s : String → Val
  | n : Nat → Val
  | q : ℚ → Val
deriving DecidableEq

/-- A Python dict, modelled as an insertion-ordered association list. -/
abbrev PyDict := List (String × Val)

/-- Python `d[k]` / `d.get(k)`: the value of the first (unique) binding
of `k`, if any. -/
def dictGet : PyDict → String → Option Val
  | [], _ => none
  | (k', v') :: rest, k => if k' = k then some v' else dictGet rest k

/-- Python `d[k] = v`: update the binding in place if present, else
append a new binding (Python dicts preserve insertion order). -/
def dictSet : PyDict → String → Val → PyDict
  | [], k, v => [(k, v)]
  | (k', v') :: rest, k, v =>
    if k' = k then (k, v) :: rest else (k', v') :: dictSet rest k v

/-- Python `str(...)` / f-string rendering of a dict value. -/
def valToString : Val → String
  | .s t => t
  | .n m => toString m
  | .q r => toString r

instance {ε α : Type _} [DecidableEq ε] [DecidableEq α] : DecidableEq (Except ε α) := fun x y =>
  match x, y with
  | .error e, .error e' =>
    if h : e = e' then .isTrue (by rw [h]) else .isFalse (fun hh => h (by injection hh))
  | .error _, .ok _ => .isFalse (fun hh => Except.noConfusion hh)
  | .ok _, .error _ => .isFalse (fun hh => Except.noConfusion hh)
  | .ok a, .ok b =>
    if h : a = b then .isTrue (by rw [h]) else .isFalse (fun hh => h (by injection hh))

/-! ### The FAISS `IndexFlatIP` model -/

/-- An embedding vector (machine floats modelled as `ℚ`). -/
abbrev Vec := List ℚ

/-- Inner product of two vectors. -/
def dot (u v : Vec) : ℚ := (List.zipWith (· * ·) u v).sum

/-- Score every stored vector against the query, pairing each score with
the position of the vector in the index (starting at `i`). -/
def scoreAll (q : Vec) : List Vec → Nat → List (ℚ × Nat)
  | [], _ => []
  | v :: vs, i => (dot q v, i) :: scoreAll q vs (i + 1)

/-- Descending order on scored index entries. -/
def scoreGe (a b : ℚ × Nat) : Prop := b.1 ≤ a.1

instance : DecidableRel scoreGe := fun a b => inferInstanceAs (Decidable (b.1 ≤ a.1))

instance : IsTotal (ℚ × Nat) scoreGe := ⟨fun a b => le_total b.1 a.1⟩

instance : IsTrans (ℚ × Nat) scoreGe := ⟨fun _ _ _ h1 h2 => le_trans h2 h1⟩

/-- `faiss.IndexFlatIP`: a flat store of (already normalised) vectors. -/
structure FaissIndex where
  vecs : List Vec
deriving DecidableEq

/-- `index.search(query, k)`: exact inner-product search — score every
stored vector, order by descending score (stable, so ties keep the
lower index first, as FAISS does), and return the best `k` entries. -/
def faissSearch (idx : FaissIndex) (q : Vec) (k : Nat) : List (ℚ × Nat) :=
  (List.insertionSort scoreGe (scoreAll q idx.vecs 0)).take k

/-! ### The `RAGSystem` state and its external collaborators -/

/-- The external collaborators of `RAGSystem`, left opaque: the
sentence-transformer `encode` for a single string, the
`faiss.normalize_L2` normalisation of one row, and the Groq
chat-completion call (`.error` = the call raised). -/
structure Ext where
  embed : String → Vec
  normalize : Vec → Vec
  llmCall : String → Except String String

/-- The mutable state of a `RAGSystem` instance (rag_system.py
`__init__`): configuration, the optional FAISS index (`None` before any
build/load), the chunk dicts and the duplicate metadata list.
`groq_client` records whether a Groq client was configured. -/
structure RAGSystem where
  chunk_size : Nat
  chunk_overlap : Nat
  top_k : Nat
  groq_client : Bool
  index : Option FaissIndex
  documents : List PyDict
  metadata : List PyDict
deriving DecidableEq

/-- Python `doc["text"]` rendered to the string handed to the embedding
model; a missing key is a `KeyError`. -/
def getText (d : PyDict) : Except String String :=
  match dictGet d "text" with
  | some v => .ok (valToString v)
  | none => .error "KeyError: text"

/-- A Python list comprehension whose body may raise: the first raised
exception propagates, otherwise the list of results is produced. -/
def mapExcept (f : α → Except String β) : List α → Except String (List β)
  | [] => .ok []
  | a :: as =>
    match f a with
    | .error e => .error e
    | .ok b =>
      match mapExcept f as with
      | .error e => .error e
      | .ok bs => .ok (b :: bs)

/-- `RAGSystem.build_index` (rag_system.py lines 135-168): raise on an
empty document list; otherwise embed every `doc["text"]`, normalise,
store the vectors in a fresh `IndexFlatIP`, and keep `documents` and
`metadata` (both set to the given list). -/
def build_index (ext : Ext) (sys : RAGSystem) (docs : List PyDict) :
    Except String RAGSystem :=
  if docs.isEmpty then .error "No documents provided"
  else
    match mapExcept getText docs with
    | .error e => .error e
    | .ok texts =>
      let embeddings := texts.map ext.embed
      let normed := embeddings.map ext.normalize
      .ok { sys with
            documents := docs
            index := some ⟨normed⟩
            metadata := docs }

/-- `RAGSystem.retrieve` (rag_system.py lines 170-206): raise if no
index was built/loaded; otherwise embed and normalise the query, search
with `k = min(top_k, len(documents))`, and annotate a copy of the
metadata dict of each hit with its score. -/
def retrieve (ext : Ext) (sys : RAGSystem) (query : String) :
    Except String (List PyDict) :=
  match sys.index with
  | none => .error "Index not built. Call build_index() first."
  | some idx =>
    let qv := ext.normalize (ext.embed query)
    let hits := faissSearch idx qv (min sys.top_k sys.documents.length)
    .ok (hits.filterMap fun p =>
      if p.2 < sys.metadata.length then
        some (dictSet (sys.metadata.getD p.2 []) "score" (Val.q p.1))
      else none)

/-- The `score` field retrieve annotates on each result. -/
def getScore (d : PyDict) : ℚ :=
  match dictGet d "score" with
  | some (Val.q r) => r
  | _ => 0

/-! ### The generator (`RAGSystem.generate_answer`, lines 208-252) -/

/-- Python `doc.get("source", "unknown")` rendered into the prompt. -/
def getSource (d : PyDict) : String :=
  match dictGet d "source" with
  | some v => valToString v
  | none => "unknown"

/-- One context block `[Document {i+1} from {source}]\n{text}`;
`doc["text"]` raises a `KeyError` when the key is absent (this access
sits outside the `try` of `generate_answer`). -/
def docLine (i : Nat) (d : PyDict) : Except String String :=
  match dictGet d "text" with
  | some v =>
      .ok ("[Document " ++ toString (i + 1) ++ " from " ++ getSource d ++ "]\n"
        ++ valToString v)
  | none => .error "KeyError: text"

/-- The enumerated list comprehension building all context blocks. -/
def docLines : List PyDict → Nat → Except String (List String)
  | [], _ => .ok []
  | d :: rest, i =>
    match docLine i d with
    | .error e => .error e
    | .ok line =>
      match docLines rest (i + 1) with
      | .error e => .error e
      | .ok lines => .ok (line :: lines)

/-- Python `sep.join(xs)`. -/
def joinSep (sep : String) : List String → String
  | [] => ""
  | [x] => x
  | x :: rest => x ++ sep ++ joinSep sep rest

/-- The prompt assembled by `generate_answer`. -/
def mkPrompt (query context : String) : String :=
  "You are a helpful assistant that answers questions based on the provided context.\n\nContext:\n"
    ++ context
    ++ "\n\nQuestion: " ++ query
    ++ "\n\nPlease provide a comprehensive answer based on the context above. If the context doesn\x27t contain enough information to answer the question, say so."

/-- `RAGSystem.generate_answer`: without a Groq client return the fixed
sentinel; otherwise build the prompt (where `doc["text"]` may raise)
and call the model inside `try/except`, turning any failure into the
string `"Error generating answer: ..."`. -/
def generate_answer (ext : Ext) (sys : RAGSystem) (query : String)
    (context_docs : List PyDict) : Except String String :=
  if sys.groq_client = false then
    .ok "LLM not available. Please set GROQ_API_KEY environment variable."
  else
    match docLines context_docs 0 with
    | .error e => .error e
    | .ok lines =>
      match ext.llmCall (mkPrompt query (joinSep "\n\n" lines)) with
      | .ok ans => .ok ans
      | .error e => .ok ("Error generating answer: " ++ e)

/-! ### The pipeline (`RAGSystem.query`, lines 254-274) -/

/-- The dict returned by `RAGSystem.query`. -/
structure QueryRecord where
  question : String
  retrieved_documents : List PyDict
  answer : String
deriving DecidableEq

/-- `RAGSystem.query`: retrieve, then generate, then assemble the
result record; any exception propagates. -/
def query (ext : Ext) (sys : RAGSystem) (question : String) :
    Except String QueryRecord :=
  match retrieve ext sys question with
  | .error e => .error e
  | .ok docs =>
    match generate_answer ext sys question docs with
    | .error e => .error e
    | .ok ans => .ok ⟨question, docs, ans⟩

/-! ### Persistence (`save_index` / `load_index`, lines 276-310) -/

/-- The two co-located artifacts written by `save_index`: the FAISS
index blob and the pickled metadata dict (documents, metadata,
chunk_size, chunk_overlap, top_k). -/
structure SavedIndex where
  indexBlob : FaissIndex
  documents : List PyDict
  metadata : List PyDict
  chunk_size : Nat
  chunk_overlap : Nat
  top_k : Nat
deriving DecidableEq

/-- `RAGSystem.save_index`: raise if there is no index, otherwise write
both artifacts. -/
def save_index (sys : RAGSystem) : Except String SavedIndex :=
  match sys.index with
  | none => .error "No index to save"
  | some idx =>
    .ok ⟨idx, sys.documents, sys.metadata, sys.chunk_size, sys.chunk_overlap, sys.top_k⟩

/-- `RAGSystem.load_index`: restore the index and every pickled field
(the `data.get(key, default)` fallbacks never fire on data written by
`save_index`, which always stores all five keys). -/
def load_index (sys : RAGSystem) (saved : SavedIndex) : RAGSystem :=
  { sys with
    index := some saved.indexBlob
    documents := saved.documents
    metadata := saved.metadata
    chunk_size := saved.chunk_size
    chunk_overlap := saved.chunk_overlap
    top_k := saved.top_k }

/-! ### Heap-level model of the result-assembly loop (lines 199-206)

To make the "no mutation of stored state" claim meaningful, the result
loop of `retrieve` is additionally modelled at the level of Python
object references: a heap of dict objects, the metadata list holding
references into it.  `metadata[idx].copy()` allocates a fresh cell and
`doc["score"] = float(score)` mutates only that fresh cell. -/

/-- The Python heap restricted to dict objects; list positions are
object references. -/
abbrev Heap := List PyDict

/-- The `for score, idx in zip(scores[0], indices[0])` loop of
`retrieve`, over search hits `(score, idx)`: skip out-of-range indices,
otherwise copy the referenced metadata dict into a fresh heap cell, set
`"score"` on the copy, and collect the reference to the copy.  Returns
the final heap and the references of the result list. -/
def assembleResults (metaRefs : List Nat) :
    Heap → List (ℚ × Nat) → Heap × List Nat
  | h, [] => (h, [])
  | h, (score, i) :: rest =>
    if i < metaRefs.length then
      let src := h.getD (metaRefs.getD i 0) []
      let r := h.length
      let h2 := (h ++ [src]).set r (dictSet src "score" (Val.q score))
      let out := assembleResults metaRefs h2 rest
      (out.1, r :: out.2)
    else
      assembleResults metaRefs h rest

/-! ### Concrete instances used by the witnesses -/

/-- A concrete collaborator bundle: a constant embedding, identity
normalisation, and a Groq call that succeeds. -/
def extOk : Ext := ⟨fun _ => [1], id, fun _ => .ok "the answer"⟩

/-- A concrete collaborator bundle whose Groq call raises. -/
def extFail : Ext := ⟨fun _ => [1], id, fun _ => .error "boom"⟩

/-- A freshly constructed `RAGSystem()` with the default configuration
and no API key: no index, no documents. -/
def freshSystem : RAGSystem := ⟨512, 50, 3, false, none, [], []⟩

/-- A two-chunk corpus. -/
def docs2 : List PyDict :=
  [[("text", Val.s "cats are mammals"), ("source", Val.s "a.txt")],
   [("text", Val.s "dogs are mammals"), ("source", Val.s "a.txt")]]

/-- The state `build_index extOk freshSystem docs2` produces. -/
def builtSystem : RAGSystem := ⟨512, 50, 3, false, some ⟨[[1], [1]]⟩, docs2, docs2⟩

/-- The artifacts `save_index builtSystem` writes. -/
def savedBuilt : SavedIndex := ⟨⟨[[1], [1]]⟩, docs2, docs2, 512, 50, 3⟩

example : chunk_text 5 2 "abcdefgh".toList = ["abcde".toList, "defgh".toList] := by decide

example : chunk_starts 5 2 8 = [0, 3] := by decide

example : chunk_text 5 2 "abc".toList = ["abc".toList] := by decide

example : chunk_text 5 2 ([] : List Char) = [] := by decide

example : chunk_text 4 0 "  ab  cd".toList = ["ab".toList, "cd".toList] := by decide

/-- The loop bodies of `chunkTextAux` and `chunkStartsAux` follow the same
control flow: the chunk appended at offset `start` is exactly
`sliceChunk L text start`. -/
lemma chunkTextAux_eq_starts (L O : Nat) (text : List Char) :
    ∀ fuel start,
      chunkTextAux L O text fuel start
        = (chunkStartsAux L O text.length fuel start).map (List.map (sliceChunk L text)) := by
  intro fuel
  induction fuel with
  | zero => intro start; rfl
  | succ f ih =>
    intro start
    simp only [chunkTextAux, chunkStartsAux]
    by_cases h1 : start < text.length
    · simp only [if_pos h1]
      by_cases h2 : text.length ≤ start + L
      · simp only [if_pos h2]; rfl
      · simp only [if_neg h2, ih (start + L - O)]
        cases chunkStartsAux L O text.length f (start + L - O) <;> rfl
    · simp only [if_neg h1]; rfl

/-- As long as `O < L`, fuel `n - start` suffices for the loop to
terminate: every iteration advances `start` by at least one. -/
lemma chunkStartsAux_isSome (L O n : Nat) (hLO : O < L) :
    ∀ fuel start, n - start ≤ fuel →
      (chunkStartsAux L O n (fuel + 1) start).isSome := by
  intro fuel
  induction fuel with
  | zero =>
    intro start h
    have hns : ¬ start < n := by omega
    simp [chunkStartsAux, hns]
  | succ f ih =>
    intro start h
    rw [chunkStartsAux]
    by_cases h1 : start < n
    · simp only [if_pos h1]
      by_cases h2 : n ≤ start + L
      · simp [if_pos h2]
      · simp only [if_neg h2]
        have hrec := ih (start + L - O) (by omega)
        cases hx : chunkStartsAux L O n (f + 1) (start + L - O) with
        | none => rw [hx] at hrec; simp at hrec
        | some l => simp [hx]
    · simp [if_neg h1]

/-- The start offsets recorded by the loop form an arithmetic progression
of stride `L - O`, beginning at the current `start`. -/
lemma chunkStartsAux_chain (L O n : Nat) (hLO : O < L) :
    ∀ fuel start l, chunkStartsAux L O n (fuel + 1) start = some l →
      List.Chain' (fun a b => b = a + (L - O)) l ∧ ∀ x ∈ l.head?, x = start := by
  intro fuel
  induction fuel with
  | zero =>
    intro start l hl
    simp only [chunkStartsAux] at hl
    by_cases h1 : start < n
    · rw [if_pos h1] at hl
      by_cases h2 : n ≤ start + L
      · rw [if_pos h2] at hl
        injection hl with hl
        subst hl
        exact ⟨List.chain'_singleton start, by simp⟩
      · rw [if_neg h2] at hl
        simp [chunkStartsAux] at hl
    · rw [if_neg h1] at hl
      injection hl with hl
      subst hl
      exact ⟨List.chain'_nil, by simp⟩
  | succ f ih =>
    intro start l hl
    rw [chunkStartsAux] at hl
    by_cases h1 : start < n
    · rw [if_pos h1] at hl
      by_cases h2 : n ≤ start + L
      · rw [if_pos h2] at hl
        injection hl with hl
        subst hl
        exact ⟨List.chain'_singleton start, by simp⟩
      · rw [if_neg h2] at hl
        cases hx : chunkStartsAux L O n (f + 1) (start + L - O) with
        | none => rw [hx] at hl; simp at hl
        | some rest =>
          rw [hx] at hl
          injection hl with hl
          subst hl
          obtain ⟨hchain, hhead⟩ := ih (start + L - O) rest hx
          refine ⟨List.chain'_cons'.mpr ⟨?_, hchain⟩, by simp⟩
          intro y hy
          have := hhead y hy
          omega
    · rw [if_neg h1] at hl
      injection hl with hl
      subst hl
      exact ⟨List.chain'_nil, by simp⟩

/-- Chunk count: while the remaining text is strictly longer than `L`,
the loop produces `⌈(n - start - O) / (L - O)⌉` chunks (written with
natural division as `(n - start - O + (L - O) - 1) / (L - O)`). -/
lemma chunkStartsAux_len (L O n : Nat) (hLO : O < L) :
    ∀ fuel start l, start + L < n →
      chunkStartsAux L O n (fuel + 1) start = some l →
      l.length = (n - start - O + (L - O) - 1) / (L - O) := by
  intro fuel
  induction fuel with
  | zero =>
    intro start l hlt hl
    have h1 : start < n := by omega
    have h2 : ¬ n ≤ start + L := by omega
    rw [chunkStartsAux, if_pos h1, if_neg h2] at hl
    simp [chunkStartsAux] at hl
  | succ f ih =>
    intro start l hlt hl
    have h1 : start < n := by omega
    have h2 : ¬ n ≤ start + L := by omega
    rw [chunkStartsAux, if_pos h1, if_neg h2] at hl
    cases hx : chunkStartsAux L O n (f + 1) (start + L - O) with
    | none => rw [hx] at hl; simp at hl
    | some rest =>
      rw [hx] at hl
      injection hl with hl
      subst hl
      by_cases h3 : start + L - O + L < n
      · have hlen := ih (start + L - O) rest h3 hx
        have harith : n - start - O + (L - O) - 1
            = (n - (start + L - O) - O + (L - O) - 1) + (L - O) := by omega
        rw [List.length_cons, hlen, harith,
          Nat.add_div_right _ (by omega : 0 < L - O)]
      · -- the next iteration is the last one: `rest = [start + L - O]`
        have h4 : start + L - O < n := by omega
        have h5 : n ≤ (start + L - O) + L := by omega
        rw [chunkStartsAux, if_pos h4, if_pos h5] at hx
        injection hx with hx
        subst hx
        have hnum1 : 2 * (L - O) ≤ n - start - O + (L - O) - 1 := by omega
        have hnum2 : n - start - O + (L - O) - 1 < (2 + 1) * (L - O) := by omega
        rw [(Nat.div_eq_of_lt_le hnum1 hnum2 :
          (n - start - O + (L - O) - 1) / (L - O) = 2)]
        rfl

/-- The instrumented loop from `start = 0` with fuel `n + 1` terminates
whenever `O < L`. -/
lemma chunk_starts_isSome (L O n : Nat) (hLO : O < L) :
    (chunkStartsAux L O n (n + 1) 0).isSome :=
  chunkStartsAux_isSome L O n hLO n 0 (by omega)

/-- `chunk_text` returns exactly the stripped slices of the text at the
offsets `chunk_starts`. -/
lemma chunk_text_eq_starts_map (L O : Nat) (text : List Char) (hLO : O < L) :
    chunk_text L O text = (chunk_starts L O text.length).map (sliceChunk L text) := by
  unfold chunk_text chunk_starts
  rw [chunkTextAux_eq_starts]
  cases hx : chunkStartsAux L O text.length (text.length + 1) 0 with
  | none =>
    have := chunk_starts_isSome L O text.length hLO
    rw [hx] at this
    simp at this
  | some l => simp

/-! ### Dict lemmas -/

/-- After `d[k] = v`, looking up `k` yields `v`. -/
lemma dictGet_dictSet_self (d : PyDict) (k : String) (v : Val) :
    dictGet (dictSet d k v) k = some v := by
  induction d with
  | nil => simp [dictSet, dictGet]
  | cons kv rest ih =>
    obtain ⟨k', v'⟩ := kv
    by_cases hk : k' = k
    · subst hk; simp [dictSet, dictGet]
    · simp [dictSet, dictGet, hk, ih]

/-- `d[k] = v` leaves every other key unchanged. -/
lemma dictGet_dictSet_ne (d : PyDict) (k k' : String) (v : Val) (hne : k' ≠ k) :
    dictGet (dictSet d k v) k' = dictGet d k' := by
  induction d with
  | nil => simp [dictSet, dictGet, Ne.symm hne]
  | cons kv rest ih =>
    obtain ⟨k0, v0⟩ := kv
    by_cases hk : k0 = k
    · subst hk
      simp [dictSet, dictGet, Ne.symm hne]
    · by_cases hk' : k0 = k'
      · subst hk'
        simp [dictSet, dictGet, hk]
      · simp [dictSet, dictGet, hk, hk', ih]

/-- The score `retrieve` annotates is readable back. -/
lemma getScore_dictSet (d : PyDict) (r : ℚ) :
    getScore (dictSet d "score" (Val.q r)) = r := by
  unfold getScore
  rw [dictGet_dictSet_self]

/-! ### `mapExcept` lemmas -/

lemma mapExcept_ok_length {α β : Type _} {f : α → Except String β} :
    ∀ {l : List α} {ys : List β}, mapExcept f l = .ok ys → ys.length = l.length := by
  intro l
  induction l with
  | nil =>
    intro ys h
    injection h with h
    subst h
    rfl
  | cons a as ih =>
    intro ys h
    unfold mapExcept at h
    cases hfa : f a with
    | error e => rw [hfa] at h; exact absurd h (by simp)
    | ok b =>
      rw [hfa] at h
      cases hrest : mapExcept f as with
      | error e => rw [hrest] at h; exact absurd h (by simp)
      | ok bs =>
        rw [hrest] at h
        injection h with h
        subst h
        simp [ih hrest]

lemma mapExcept_ok_forall {α β : Type _} {f : α → Except String β} :
    ∀ {l : List α} {ys : List β}, mapExcept f l = .ok ys →
      ∀ a ∈ l, ∃ b, f a = .ok b := by
  intro l
  induction l with
  | nil => intro ys _ a ha; exact absurd ha (by simp)
  | cons a as ih =>
    intro ys h c hc
    unfold mapExcept at h
    cases hfa : f a with
    | error e => rw [hfa] at h; exact absurd h (by simp)
    | ok b =>
      rw [hfa] at h
      cases hrest : mapExcept f as with
      | error e => rw [hrest] at h; exact absurd h (by simp)
      | ok bs =>
        rcases List.mem_cons.mp hc with hca | hcas
        · subst hca; exact ⟨b, hfa⟩
        · exact ih hrest c hcas

/-- A successful `doc["text"]` read means the key is present. -/
lemma getText_ok_isSome {d : PyDict} {t : String} (h : getText d = .ok t) :
    (dictGet d "text").isSome := by
  unfold getText at h
  cases hx : dictGet d "text" with
  | none => rw [hx] at h; exact absurd h (by simp)
  | some v => simp

/-! ### FAISS search lemmas -/

lemma scoreAll_length (q : Vec) :
    ∀ (vs : List Vec) (i : Nat), (scoreAll q vs i).length = vs.length := by
  intro vs
  induction vs with
  | nil => intro i; rfl
  | cons v rest ih => intro i; simp [scoreAll, ih]

lemma scoreAll_snd_lt (q : Vec) :
    ∀ (vs : List Vec) (i : Nat), ∀ p ∈ scoreAll q vs i, p.2 < i + vs.length := by
  intro vs
  induction vs with
  | nil => intro i p hp; exact absurd hp (by simp [scoreAll])
  | cons v rest ih =>
    intro i p hp
    rcases List.mem_cons.mp hp with hpv | hprest
    · subst hpv; simp
    · have := ih (i + 1) p hprest
      simp only [List.length_cons]
      omega

/-- `search` returns exactly `min k N` hits. -/
lemma faissSearch_length (idx : FaissIndex) (q : Vec) (k : Nat) :
    (faissSearch idx q k).length = min k idx.vecs.length := by
  unfold faissSearch
  rw [List.length_take, List.length_insertionSort, scoreAll_length]

/-- The index of every hit is in range. -/
lemma faissSearch_snd_lt (idx : FaissIndex) (q : Vec) (k : Nat) :
    ∀ p ∈ faissSearch idx q k, p.2 < idx.vecs.length := by
  intro p hp
  have h1 : p ∈ List.insertionSort scoreGe (scoreAll q idx.vecs 0) :=
    List.mem_of_mem_take hp
  have h2 : p ∈ scoreAll q idx.vecs 0 := by simpa using h1
  have := scoreAll_snd_lt q idx.vecs 0 p h2
  omega

/-- The hits come back in descending score order. -/
lemma faissSearch_sorted (idx : FaissIndex) (q : Vec) (k : Nat) :
    List.Pairwise scoreGe (faissSearch idx q k) :=
  (List.sorted_insertionSort scoreGe (scoreAll q idx.vecs 0)).sublist
    (List.take_sublist k _)

/-! ### `retrieve` characterisation -/

/-- When every hit index is in range, the `if idx < len(self.metadata)`
filter of the result loop keeps every hit. -/
lemma filterMap_if_lt_eq_map {m : Nat} (g : ℚ × Nat → PyDict) :
    ∀ (l : List (ℚ × Nat)), (∀ p ∈ l, p.2 < m) →
      (l.filterMap fun p => if p.2 < m then some (g p) else none) = l.map g := by
  intro l
  induction l with
  | nil => intro _; rfl
  | cons p rest ih =>
    intro hall
    have hp := hall p (List.mem_cons_self p rest)
    simp only [List.filterMap_cons, if_pos hp, List.map_cons]
    rw [ih fun p' hp' => hall p' (List.mem_cons_of_mem p hp')]

/-- `retrieve` on an un-built system raises. -/
lemma retrieve_of_index_none (ext : Ext) (sys : RAGSystem) (q : String)
    (h : sys.index = none) :
    retrieve ext sys q = .error "Index not built. Call build_index() first." := by
  simp only [retrieve, h]

/-- `retrieve` on a built system: the annotated copies of the metadata
dicts of all the hits, in search order. -/
lemma retrieve_of_index_some (ext : Ext) (sys : RAGSystem) (idx : FaissIndex)
    (q : String) (h : sys.index = some idx)
    (hvalid : ∀ p ∈ faissSearch idx (ext.normalize (ext.embed q))
      (min sys.top_k sys.documents.length), p.2 < sys.metadata.length) :
    retrieve ext sys q
      = .ok ((faissSearch idx (ext.normalize (ext.embed q))
          (min sys.top_k sys.documents.length)).map
        fun p => dictSet (sys.metadata.getD p.2 []) "score" (Val.q p.1)) := by
  simp only [retrieve, h]
  rw [filterMap_if_lt_eq_map _ _ hvalid]

/-! ### `build_index` inversion -/

/-- What a successful `build_index` establishes about the new state. -/
lemma build_index_ok {ext : Ext} {sys0 sys : RAGSystem} {docs : List PyDict}
    (hb : build_index ext sys0 docs = .ok sys) :
    ∃ texts, mapExcept getText docs = .ok texts ∧
      sys = { sys0 with
              documents := docs
              index := some ⟨(texts.map ext.embed).map ext.normalize⟩
              metadata := docs } := by
  unfold build_index at hb
  by_cases hd : docs.isEmpty
  · rw [if_pos hd] at hb
    exact absurd hb (by simp)
  · rw [if_neg hd] at hb
    cases ht : mapExcept getText docs with
    | error e => rw [ht] at hb; exact absurd hb (by simp)
    | ok texts =>
      rw [ht] at hb
      injection hb with hb
      exact ⟨texts, rfl, hb.symm⟩

/-! ### `generate_answer` and `docLines` totality -/

/-- When every context doc has a `text` key, building the context blocks
never raises. -/
lemma docLines_ok :
    ∀ (ctx : List PyDict), (∀ d ∈ ctx, (dictGet d "text").isSome) →
      ∀ i, ∃ lines, docLines ctx i = .ok lines := by
  intro ctx
  induction ctx with
  | nil => intro _ i; exact ⟨[], rfl⟩
  | cons d rest ih =>
    intro hctx i
    obtain ⟨v, hv⟩ := Option.isSome_iff_exists.mp (hctx d (List.mem_cons_self d rest))
    obtain ⟨lines, hlines⟩ :=
      ih (fun d' hd' => hctx d' (List.mem_cons_of_mem d hd')) (i + 1)
    refine ⟨("[Document " ++ toString (i + 1) ++ " from " ++ getSource d ++ "]\n"
      ++ valToString v) :: lines, ?_⟩
    simp [docLines, docLine, hv, hlines]

/-- When every context doc has a `text` key, `generate_answer` returns
a string (never propagates an exception). -/
lemma generate_answer_ok (ext : Ext) (sys : RAGSystem) (q : String)
    (ctx : List PyDict) (hctx : ∀ d ∈ ctx, (dictGet d "text").isSome) :
    ∃ s, generate_answer ext sys q ctx = .ok s := by
  unfold generate_answer
  by_cases hgc : sys.groq_client = false
  · rw [if_pos hgc]
    exact ⟨_, rfl⟩
  · rw [if_neg hgc]
    obtain ⟨lines, hlines⟩ := docLines_ok ctx hctx 0
    rw [hlines]
    cases hcall : ext.llmCall (mkPrompt q (joinSep "\n\n" lines)) with
    | ok ans => exact ⟨ans, by simp [hcall]⟩
    | error e => exact ⟨"Error generating answer: " ++ e, by simp [hcall]⟩

/-! ## Claim theorems -/

/-- C1: for every text `T` with `len(T) > chunk_size` and every overlap
with `0 ≤ overlap < chunk_size`, `chunk_text T` produces exactly the
stripped slices of `T` at the offsets `chunk_starts`, those consecutive
start offsets differ by exactly `chunk_size - overlap`, and the number
of chunks equals `⌈(len(T) - overlap) / (chunk_size - overlap)⌉`
(written with natural-number division). -/
theorem chunk_text_stride_count (L O : Nat) (text : List Char)
    (hLO : O < L) (hlen : L < text.length) :
    chunk_text L O text = (chunk_starts L O text.length).map (sliceChunk L text) ∧
    List.Chain' (fun a b => b = a + (L - O)) (chunk_starts L O text.length) ∧
    (chunk_text L O text).length
      = (text.length - O + (L - O) - 1) / (L - O) := by
  obtain ⟨l, hl⟩ :=
    Option.isSome_iff_exists.mp (chunk_starts_isSome L O text.length hLO)
  have hcs : chunk_starts L O text.length = l := by
    unfold chunk_starts
    rw [hl]
    rfl
  have hmap := chunk_text_eq_starts_map L O text hLO
  refine ⟨hmap, ?_, ?_⟩
  · rw [hcs]
    exact (chunkStartsAux_chain L O text.length hLO text.length 0 l hl).1
  · rw [hmap, List.length_map, hcs]
    have := chunkStartsAux_len L O text.length hLO text.length 0 l (by omega) hl
    simpa using this

/-- Witness for C1 at `L = 5`, `O = 2`, `T = "abcdefgh"`. -/
theorem chunk_text_stride_count_witness :
    2 < 5 ∧ 5 < "abcdefgh".toList.length ∧
    (chunk_text 5 2 "abcdefgh".toList
        = (chunk_starts 5 2 "abcdefgh".toList.length).map (sliceChunk 5 "abcdefgh".toList) ∧
      List.Chain' (fun a b => b = a + (5 - 2)) (chunk_starts 5 2 "abcdefgh".toList.length) ∧
      (chunk_text 5 2 "abcdefgh".toList).length
        = ("abcdefgh".toList.length - 2 + (5 - 2) - 1) / (5 - 2)) :=
  ⟨by decide, by decide,
    chunk_text_stride_count 5 2 "abcdefgh".toList (by decide) (by decide)⟩

/-- C6: for every non-empty text `T` with `len(T) ≤ chunk_size`,
`chunk_text T` yields exactly one chunk equal to `T.strip()`; for the
empty string it yields zero chunks. -/
theorem chunk_text_short_text (L O : Nat) (text : List Char)
    (h1 : text ≠ []) (h2 : text.length ≤ L) :
    chunk_text L O text = [pyStrip text] ∧ chunk_text L O ([] : List Char) = [] := by
  refine ⟨?_, rfl⟩
  have hn : 0 < text.length := List.length_pos.mpr h1
  unfold chunk_text
  rw [chunkTextAux, if_pos hn, if_pos (by omega : text.length ≤ 0 + L)]
  simp [sliceChunk, List.take_of_length_le h2]

/-- Witness for C6 at the default `chunk_size = 512`, `overlap = 50`,
`T = " hi "`. -/
theorem chunk_text_short_text_witness :
    " hi ".toList ≠ [] ∧ " hi ".toList.length ≤ 512 ∧
    (chunk_text 512 50 " hi ".toList = [pyStrip " hi ".toList] ∧
      chunk_text 512 50 ([] : List Char) = []) :=
  ⟨by decide, by decide,
    chunk_text_short_text 512 50 " hi ".toList (by decide) (by decide)⟩

/-- C9: under the precondition `0 ≤ chunk_overlap < chunk_size`, the
`while` loop of `chunk_text` terminates on every input text — fuel
`len(text) + 1` already suffices for the fuel-indexed loop to deliver
its result (it never returns `none`), and `chunk_text` equals that
result. -/
theorem chunk_text_terminates (L O : Nat) (text : List Char) (hLO : O < L) :
    ∃ r, chunkTextAux L O text (text.length + 1) 0 = some r ∧
      chunk_text L O text = r := by
  obtain ⟨l, hl⟩ :=
    Option.isSome_iff_exists.mp (chunk_starts_isSome L O text.length hLO)
  refine ⟨l.map (sliceChunk L text), ?_, ?_⟩
  · rw [chunkTextAux_eq_starts, hl]
    rfl
  · unfold chunk_text
    rw [chunkTextAux_eq_starts, hl]
    rfl

/-- Witness for C9 at `L = 3`, `O = 1`, `T = "hello"`. -/
theorem chunk_text_terminates_witness :
    1 < 3 ∧ ∃ r, chunkTextAux 3 1 "hello".toList ("hello".toList.length + 1) 0 = some r ∧
      chunk_text 3 1 "hello".toList = r :=
  ⟨by decide, chunk_text_terminates 3 1 "hello".toList (by decide)⟩

/-- C2 counterexample: on a freshly constructed system (zero chunks, no
successful build or load, so `self.index is None`), `retrieve` does NOT
return an empty sequence — it raises the not-ready `ValueError`. -/
theorem retrieve_empty_index_cex :
    retrieve extOk freshSystem "what is crop farming"
      = Except.error "Index not built. Call build_index() first." ∧
    retrieve extOk freshSystem "what is crop farming"
      ≠ Except.ok [] :=
  ⟨rfl, by decide⟩

/-- C2 (amended): for every index state with zero chunks from no
successful build or load (`self.index is None`), `retrieve(query)`
raises the not-ready error, for every query string. -/
theorem retrieve_no_build_raises (ext : Ext) (sys : RAGSystem)
    (h : sys.index = none) (q : String) :
    retrieve ext sys q = .error "Index not built. Call build_index() first." :=
  retrieve_of_index_none ext sys q h

/-- Witness for the amended C2 on the fresh default system. -/
theorem retrieve_no_build_raises_witness :
    freshSystem.index = none ∧
    retrieve extOk freshSystem "hello"
      = .error "Index not built. Call build_index() first." :=
  ⟨rfl, retrieve_no_build_raises extOk freshSystem rfl "hello"⟩

/-- C5: `build_index` raises `ValueError("No documents provided")` on an
empty chunk list, and `retrieve` raises the not-ready `ValueError`
before any successful build or load; both errors propagate to the
caller. -/
theorem build_empty_and_unready_raise (ext : Ext) (sys : RAGSystem)
    (h : sys.index = none) :
    build_index ext sys [] = .error "No documents provided" ∧
    ∀ q, retrieve ext sys q
      = .error "Index not built. Call build_index() first." :=
  ⟨rfl, fun q => retrieve_of_index_none ext sys q h⟩

/-- Witness for C5 on the fresh default system. -/
theorem build_empty_and_unready_raise_witness :
    freshSystem.index = none ∧
    (build_index extOk freshSystem [] = .error "No documents provided" ∧
      ∀ q, retrieve extOk freshSystem q
        = .error "Index not built. Call build_index() first.") :=
  ⟨rfl, build_empty_and_unready_raise extOk freshSystem rfl⟩

/-- C3: for every query and every context sequence of retrieved-document
records (each carrying a `text` field, per the data model),
`generate_answer` returns a string and never raises: with no Groq client
configured it returns the fixed disabled sentinel, and when the remote
completion call fails the failure is converted into the descriptive
string `"Error generating answer: <reason>"` instead of propagating. -/
theorem generate_answer_total (ext : Ext) (sys : RAGSystem) (q : String)
    (ctx : List PyDict) (hctx : ∀ d ∈ ctx, (dictGet d "text").isSome) :
    ∃ s, generate_answer ext sys q ctx = .ok s ∧
      (sys.groq_client = false →
        s = "LLM not available. Please set GROQ_API_KEY environment variable.") ∧
      (∀ lines e, sys.groq_client = true →
        docLines ctx 0 = .ok lines →
        ext.llmCall (mkPrompt q (joinSep "\n\n" lines)) = .error e →
        s = "Error generating answer: " ++ e) := by
  by_cases hgc : sys.groq_client = false
  · refine ⟨"LLM not available. Please set GROQ_API_KEY environment variable.",
      ?_, fun _ => rfl, ?_⟩
    · unfold generate_answer
      rw [if_pos hgc]
    · intro lines e hgc' _ _
      rw [hgc'] at hgc
      exact absurd hgc (by simp)
  · obtain ⟨lines0, hlines0⟩ := docLines_ok ctx hctx 0
    cases hcall : ext.llmCall (mkPrompt q (joinSep "\n\n" lines0)) with
    | ok ans =>
      refine ⟨ans, ?_, fun h => absurd h hgc, ?_⟩
      · unfold generate_answer
        rw [if_neg hgc, hlines0]
        simp [hcall]
      · intro lines e _ hlines hfail
        rw [hlines0] at hlines
        injection hlines with hlines
        subst hlines
        rw [hcall] at hfail
        exact absurd hfail (by simp)
    | error e0 =>
      refine ⟨"Error generating answer: " ++ e0, ?_, fun h => absurd h hgc, ?_⟩
      · unfold generate_answer
        rw [if_neg hgc, hlines0]
        simp [hcall]
      · intro lines e _ hlines hfail
        rw [hlines0] at hlines
        injection hlines with hlines
        subst hlines
        rw [hcall] at hfail
        injection hfail with hfail
        rw [hfail]

/-- Witness for C3: a configured client whose remote call raises, on a
two-chunk context. -/
theorem generate_answer_total_witness :
    (∀ d ∈ docs2, (dictGet d "text").isSome) ∧
    ∃ s, generate_answer extFail ⟨512, 50, 3, true, none, [], []⟩ "q" docs2 = .ok s ∧
      ((⟨512, 50, 3, true, none, [], []⟩ : RAGSystem).groq_client = false →
        s = "LLM not available. Please set GROQ_API_KEY environment variable.") ∧
      (∀ lines e, (⟨512, 50, 3, true, none, [], []⟩ : RAGSystem).groq_client = true →
        docLines docs2 0 = .ok lines →
        extFail.llmCall (mkPrompt "q" (joinSep "\n\n" lines)) = .error e →
        s = "Error generating answer: " ++ e) :=
  ⟨by decide,
    generate_answer_total extFail ⟨512, 50, 3, true, none, [], []⟩ "q" docs2 (by decide)⟩

/-- C4: for every built index over a corpus of `N` chunks and every
query, `retrieve` returns exactly `min(top_k, N)` results, in
descending score order (so when `N < top_k` it returns exactly `N`
results, not `top_k`). -/
theorem retrieve_count_and_order (ext : Ext) (sys0 sys : RAGSystem)
    (docs : List PyDict) (hb : build_index ext sys0 docs = .ok sys)
    (q : String) :
    ∃ res, retrieve ext sys q = .ok res ∧
      res.length = min sys.top_k docs.length ∧
      List.Chain' (fun a b => getScore b ≤ getScore a) res := by
  obtain ⟨texts, htexts, hsys⟩ := build_index_ok hb
  subst hsys
  set idx : FaissIndex := ⟨(texts.map ext.embed).map ext.normalize⟩ with hidx
  have hN : idx.vecs.length = docs.length := by
    simp [hidx, mapExcept_ok_length htexts]
  have hvalid : ∀ p ∈ faissSearch idx (ext.normalize (ext.embed q))
      (min sys0.top_k docs.length), p.2 < docs.length := by
    intro p hp
    have := faissSearch_snd_lt idx (ext.normalize (ext.embed q)) _ p hp
    omega
  have hret := retrieve_of_index_some ext
    { sys0 with documents := docs, index := some idx, metadata := docs }
    idx q rfl hvalid
  refine ⟨_, hret, ?_, ?_⟩
  · rw [List.length_map, faissSearch_length, hN]
    show min (min sys0.top_k docs.length) docs.length = min sys0.top_k docs.length
    omega
  · rw [List.chain'_map]
    refine (faissSearch_sorted idx (ext.normalize (ext.embed q))
      (min sys0.top_k docs.length)).chain'.imp ?_
    intro p p' hpp
    simp only [getScore_dictSet]
    exact hpp

/-- Witness for C4: `top_k = 3` but only `N = 2` chunks, so exactly two
results come back. -/
theorem retrieve_count_and_order_witness :
    build_index extOk freshSystem docs2 = .ok builtSystem ∧
    ∃ res, retrieve extOk builtSystem "mammals" = .ok res ∧
      res.length = min builtSystem.top_k docs2.length ∧
      List.Chain' (fun a b => getScore b ≤ getScore a) res :=
  ⟨by decide,
    retrieve_count_and_order extOk freshSystem builtSystem docs2 (by decide) "mammals"⟩

/-- C7: on a built index, `query(question)` returns the record whose
`question` field is the input, whose `retrieved_documents` field is
exactly `retrieve(question)`, and whose `answer` field is exactly
`generate_answer(question, retrieve(question))`; generation never makes
`query` fail. -/
theorem query_assembles_pipeline (ext : Ext) (sys0 sys : RAGSystem)
    (docs : List PyDict) (hb : build_index ext sys0 docs = .ok sys)
    (question : String) :
    ∃ rdocs ans, retrieve ext sys question = .ok rdocs ∧
      generate_answer ext sys question rdocs = .ok ans ∧
      query ext sys question = .ok ⟨question, rdocs, ans⟩ := by
  obtain ⟨texts, htexts, hsys⟩ := build_index_ok hb
  subst hsys
  set idx : FaissIndex := ⟨(texts.map ext.embed).map ext.normalize⟩ with hidx
  have hN : idx.vecs.length = docs.length := by
    simp [hidx, mapExcept_ok_length htexts]
  have hvalid : ∀ p ∈ faissSearch idx (ext.normalize (ext.embed question))
      (min sys0.top_k docs.length), p.2 < docs.length := by
    intro p hp
    have := faissSearch_snd_lt idx (ext.normalize (ext.embed question)) _ p hp
    omega
  have hret := retrieve_of_index_some ext
    { sys0 with documents := docs, index := some idx, metadata := docs }
    idx question rfl hvalid
  set rdocs := (faissSearch idx (ext.normalize (ext.embed question))
      (min sys0.top_k docs.length)).map
    (fun p => dictSet (docs.getD p.2 []) "score" (Val.q p.1)) with hrdocs
  have hctx : ∀ d ∈ rdocs, (dictGet d "text").isSome := by
    intro d hd
    rw [hrdocs] at hd
    obtain ⟨p, hp, hpd⟩ := List.mem_map.mp hd
    subst hpd
    rw [dictGet_dictSet_ne _ _ _ _ (by decide)]
    have hplt : p.2 < docs.length := hvalid p hp
    have hmem : docs.getD p.2 [] ∈ docs := by
      rw [List.getD_eq_getElem _ _ hplt]
      exact List.getElem_mem hplt
    obtain ⟨t, hts⟩ := mapExcept_ok_forall htexts _ hmem
    exact getText_ok_isSome hts
  obtain ⟨ans, hans⟩ := generate_answer_ok ext _ question rdocs hctx
  refine ⟨rdocs, ans, hret, hans, ?_⟩
  unfold query
  simp only [hret, hans]

/-- Witness for C7 on the concrete two-chunk build. -/
theorem query_assembles_pipeline_witness :
    build_index extOk freshSystem docs2 = .ok builtSystem ∧
    ∃ rdocs ans, retrieve extOk builtSystem "mammals" = .ok rdocs ∧
      generate_answer extOk builtSystem "mammals" rdocs = .ok ans ∧
      query extOk builtSystem "mammals" = .ok ⟨"mammals", rdocs, ans⟩ :=
  ⟨by decide,
    query_assembles_pipeline extOk freshSystem builtSystem docs2 (by decide) "mammals"⟩

/-- C8: `save_index` followed by `load_index` restores a state whose
`retrieve` results are identical (same documents, same order, same
scores — exactly, in this exact-arithmetic model) for every query, and
restores the chunk list, metadata, `chunk_size`, `chunk_overlap` and
`top_k`. -/
theorem save_load_roundtrip (sys : RAGSystem) (saved : SavedIndex)
    (hs : save_index sys = .ok saved) :
    (∀ ext q, retrieve ext (load_index sys saved) q = retrieve ext sys q) ∧
    (load_index sys saved).documents = sys.documents ∧
    (load_index sys saved).metadata = sys.metadata ∧
    (load_index sys saved).chunk_size = sys.chunk_size ∧
    (load_index sys saved).chunk_overlap = sys.chunk_overlap ∧
    (load_index sys saved).top_k = sys.top_k := by
  have hload : load_index sys saved = sys := by
    unfold save_index at hs
    cases hidx : sys.index with
    | none => rw [hidx] at hs; exact absurd hs (by simp)
    | some idx =>
      rw [hidx] at hs
      injection hs with hs
      subst hs
      obtain ⟨cs, co, tk, gc, ix, dcs, md⟩ := sys
      simp only [load_index]
      simp_all
  rw [hload]
  exact ⟨fun _ _ => rfl, rfl, rfl, rfl, rfl, rfl⟩

/-- Witness for C8 on the concrete built system. -/
theorem save_load_roundtrip_witness :
    save_index builtSystem = .ok savedBuilt ∧
    ((∀ ext q, retrieve ext (load_index builtSystem savedBuilt) q
        = retrieve ext builtSystem q) ∧
      (load_index builtSystem savedBuilt).documents = builtSystem.documents ∧
      (load_index builtSystem savedBuilt).metadata = builtSystem.metadata ∧
      (load_index builtSystem savedBuilt).chunk_size = builtSystem.chunk_size ∧
      (load_index builtSystem savedBuilt).chunk_overlap = builtSystem.chunk_overlap ∧
      (load_index builtSystem savedBuilt).top_k = builtSystem.top_k) :=
  ⟨by decide, save_load_roundtrip builtSystem savedBuilt (by decide)⟩

/-- C10: the result loop of `retrieve` never mutates stored state — run
on any heap, it only allocates fresh cells (every returned reference is
a new one) and every pre-existing heap cell, in particular every dict
the metadata list references, is unchanged; the score is written only
on the fresh copies. -/
theorem retrieve_no_mutation (metaRefs : List Nat) (h : Heap)
    (hits : List (ℚ × Nat)) :
    (assembleResults metaRefs h hits).1.take h.length = h ∧
    ∀ r ∈ (assembleResults metaRefs h hits).2, h.length ≤ r := by
  induction hits generalizing h with
  | nil => simp [assembleResults]
  | cons p rest ih =>
    obtain ⟨score, i⟩ := p
    by_cases hi : i < metaRefs.length
    · simp only [assembleResults, if_pos hi]
      set src := h.getD (metaRefs.getD i 0) [] with hsrc
      have hset : ((h ++ [src]).set h.length (dictSet src "score" (Val.q score)))
          = h ++ [dictSet src "score" (Val.q score)] := by
        rw [List.set_append_right _ _ (le_refl h.length)]
        simp
      rw [hset]
      set h2 := h ++ [dictSet src "score" (Val.q score)] with hh2
      have hlen2 : h2.length = h.length + 1 := by simp [hh2]
      obtain ⟨ihtake, ihrefs⟩ := ih h2
      constructor
      · have : (assembleResults metaRefs h2 rest).1.take h.length
            = ((assembleResults metaRefs h2 rest).1.take h2.length).take h.length := by
          rw [List.take_take, min_eq_left (by omega)]
        rw [this, ihtake, hh2, List.take_left]
      · intro r hr
        rcases List.mem_cons.mp hr with hrh | hrt
        · omega
        · have := ihrefs r hrt
          omega
    · simp only [assembleResults, if_neg hi]
      exact ih h

/-- Witness for C10 on a one-cell heap and a single hit. -/
theorem retrieve_no_mutation_witness :
    (assembleResults [0] [[("text", Val.s "x")]] [(1, 0)]).1.take 1
      = [[("text", Val.s "x")]] ∧
    ∀ r ∈ (assembleResults [0] [[("text", Val.s "x")]] [(1, 0)]).2, 1 ≤ r :=
  retrieve_no_mutation [0] [[("text", Val.s "x")]] [(1, 0)]

end RAGModel
